import Mathlib

/-!
Verification development for the nerf-edge-kit rendering core.

The definitions below are a shallow embedding, per ray, of the Python source
in `src/python/nerf_edge_kit/`.  Floating-point tensors are modelled as real
numbers; per-ray tensors of shape `(S,)` become `List ℝ`, RGB triples become
`ℝ × ℝ × ℝ`.  Every tensor operation used by the embedded code acts
independently on each ray of a batch, so the per-ray embedding is faithful
to the batched source.
-/

namespace NerfEdgeKit

/-- RGB color triple, one sample's color `(r, g, b)`. -/
abbrev RGB := ℝ × ℝ × ℝ

noncomputable section

/-! ## Volume rendering (`NerfModel.volume_render`, nerf.py lines 330-373) -/

/-- Embeds `dists = t_vals[..., 1:] - t_vals[..., :-1]` followed by
`torch.cat([dists, torch.full_like(dists[..., :1], 1e10)], dim=-1)`
(nerf.py lines 348-349): consecutive distance differences with a `1e10`
sentinel appended.  (`full_like(dists[..., :1], _)` is empty when `dists`
is empty, which the `take 1` on the difference list reproduces.) -/
def distsList (tvals : List ℝ) : List ℝ :=
  let d := List.zipWith (fun a b => b - a) tvals tvals.tail
  d ++ (d.take 1).map (fun _ => (1e10 : ℝ))

/-- Embeds `alpha = 1.0 - torch.exp(-densities * dists)` (nerf.py line 352). -/
def alphasList (densities tvals : List ℝ) : List ℝ :=
  List.zipWith (fun σ δ => 1 - Real.exp (-(σ * δ))) densities (distsList tvals)

/-- Embeds
`transmittance = cumprod(cat([ones_like(alpha[..., :1]), 1 - alpha + 1e-10]))[..., :-1]`
(nerf.py lines 355-358): entry `i` is the running product of
`1 - alpha_j + 1e-10` over `j < i`, starting at `1`. -/
def transmittanceList (alphas : List ℝ) : List ℝ :=
  (alphas.scanl (fun acc a => acc * (1 - a + 1e-10)) 1).dropLast

/-- Embeds `weights = alpha * transmittance` (nerf.py line 361). -/
def weightsList (alphas : List ℝ) : List ℝ :=
  List.zipWith (· * ·) alphas (transmittanceList alphas)

/-- Embeds `rgb = torch.sum(weights.unsqueeze(-1) * colors, dim=-2)`
(nerf.py line 364). -/
def weightedColorSum (weights : List ℝ) (colors : List RGB) : RGB :=
  (List.zipWith (fun w (c : RGB) => (w * c.1, w * c.2.1, w * c.2.2)) weights colors).foldr
    (fun (a b : RGB) => (a.1 + b.1, a.2.1 + b.2.1, a.2.2 + b.2.2)) (0, 0, 0)

/-- Embeds `NerfModel.volume_render` (nerf.py lines 330-373), per ray.
`useWhiteBackground` is `self.scene.config.use_white_background`; when set
the code performs `rgb = rgb + (1.0 - acc_alpha)` (line 371) — compositing
against white — and the configured `background_color` is never consulted.
Returns `(rgb, acc_alpha)`. -/
def volume_render (useWhiteBackground : Bool) (colors : List RGB)
    (densities tvals : List ℝ) : RGB × ℝ :=
  let alphas := alphasList densities tvals
  let weights := weightsList alphas
  let rgb := weightedColorSum weights colors
  let accAlpha := weights.sum
  let rgbOut :=
    if useWhiteBackground then
      (rgb.1 + (1 - accAlpha), rgb.2.1 + (1 - accAlpha), rgb.2.2 + (1 - accAlpha))
    else rgb
  (rgbOut, accAlpha)

/-- Scene-configuration fields relevant to background compositing
(`SceneConfig`, config.py lines 160-161). -/
structure SceneConfigE where
  background_color : RGB
  use_white_background : Bool

/-- Embeds `volume_render` as called with a scene attached: the source reads
only `self.scene.config.use_white_background` (nerf.py line 370); the
`background_color` field of the scene configuration does not reach the
renderer. -/
def volume_render_scene (cfg : SceneConfigE) (colors : List RGB)
    (densities tvals : List ℝ) : RGB × ℝ :=
  volume_render cfg.use_white_background colors densities tvals

/-! ## Early-terminating renderer
(`InstantNGP.volume_render_optimized`, instant_ngp.py lines 447-502) -/

/-- The transmittance produced by the early-termination loop of
`InstantNGP.volume_render_optimized` (instant_ngp.py lines 477-487).
The loop body executes exactly once, at `i = 0`, and then hits the
unconditional `break`: at `i = 0` the `if i > 0` transmittance update is
skipped, and `accumulated_alpha` is the zero tensor (it is never written
inside the loop), so the early-termination mask `accumulated_alpha > 0.99`
is everywhere false and the zeroing assignment touches nothing.  The
`transmittance` tensor therefore keeps its initial `torch.ones_like(alpha)`
value for every input. -/
def transmittanceOptList (alphas : List ℝ) : List ℝ :=
  alphas.map (fun _ => 1)

/-- Embeds `InstantNGP.volume_render_optimized` (instant_ngp.py lines
447-502), per ray, with the loop modelled by `transmittanceOptList`.  The
`valid_mask` computed at lines 473-474 is never used afterwards and is
omitted. -/
def volume_render_optimized (useWhiteBackground : Bool) (colors : List RGB)
    (densities tvals : List ℝ) : RGB × ℝ :=
  let alphas := alphasList densities tvals
  let weights := List.zipWith (· * ·) alphas (transmittanceOptList alphas)
  let rgb := weightedColorSum weights colors
  let accAlpha := weights.sum
  let rgbOut :=
    if useWhiteBackground then
      (rgb.1 + (1 - accAlpha), rgb.2.1 + (1 - accAlpha), rgb.2.2 + (1 - accAlpha))
    else rgb
  (rgbOut, accAlpha)

/-! ## Inverse-CDF sampling (`NerfModel._sample_pdf`, nerf.py lines 450-483) -/

/-- Number of entries of `l` that are `≤ u`.  On a list sorted in
non-decreasing order this is exactly `torch.searchsorted(l, u, right=True)`:
the index of the first element strictly greater than `u` (nerf.py line 469). -/
def countLE (u : ℝ) : List ℝ → ℕ
  | [] => 0
  | c :: rest => (if c ≤ u then 1 else 0) + countLE u rest

/-- Embeds `NerfModel._sample_pdf` (nerf.py lines 450-483) for one ray and
one drawn quantile `u` (the source draws `num_samples` quantiles and applies
these operations to each independently).  `torch.gather` raises on an
out-of-range index, so the lookups are modelled with `List.get?` and the
function returns `none` where the source raises.  `below` and `above` are
`torch.clamp(indices - 1, 0, cdf.shape[-1] - 1)` and
`torch.clamp(indices, 0, cdf.shape[-1] - 1)`; truncated natural subtraction
realizes the lower clamp at `0`. -/
def sample_pdf_t (tvals weights : List ℝ) (u : ℝ) : Option ℝ :=
  let w := weights.map (fun x => x + 1e-5)
  let total := w.sum
  let pdf := w.map (fun x => x / total)
  let cdfIncl := (pdf.scanl (· + ·) 0).tail
  let cdf := (cdfIncl.take 1).map (fun _ => (0 : ℝ)) ++ cdfIncl
  let idx := countLE u cdf
  let below := min (idx - 1) (cdf.length - 1)
  let above := min idx (cdf.length - 1)
  match cdf.get? below, cdf.get? above, tvals.get? below, tvals.get? above with
  | some cdfG0, some cdfG1, some tG0, some tG1 =>
      let denom0 := cdfG1 - cdfG0
      let denom := if denom0 < 1e-5 then 1 else denom0
      some (tG0 + (u - cdfG0) / denom * (tG1 - tG0))
  | _, _, _, _ => none

end

/-! ## Hash encoding (`HashEncoding`, instant_ngp.py lines 26-169) -/

/-- Per-level feature vector: `feature_dim = 2` as instantiated by
`InstantNGP.__init__` (instant_ngp.py line 264). -/
abbrev Feat := ℝ × ℝ

/-- Embeds `torch.clamp(v, 0, resolution - 1)` on one integer coordinate
(instant_ngp.py line 131), returned as a natural number (the clamped value
is non-negative). -/
def clampCoord (res : ℕ) (v : ℤ) : ℕ :=
  (max 0 (min v ((res : ℤ) - 1))).toNat

/-- Embeds `HashEncoding._hash_position` (instant_ngp.py lines 128-141) on
one corner coordinate triple: clamp each component to `[0, res - 1]`, then
`(x * 1) xor (y * 2654435761) xor (z * 805459861)` modulo the table size.
The source computes this in int64; the clamped coordinates are bounded by
an int32 resolution, so every product stays below `2^63` and the ideal
integer arithmetic used here coincides with the source's. -/
def hash_position (c : ℤ × ℤ × ℤ) (res T : ℕ) : ℕ :=
  ((clampCoord res c.1 * 1) ^^^ (clampCoord res c.2.1 * 2654435761) ^^^
    (clampCoord res c.2.2 * 805459861)) % T

noncomputable section

/-- Embeds `self.hash_table[hash_idx]` for one corner (instant_ngp.py lines
118-119).  The table of `T` feature rows is modelled as a function on
indices; the hash index is proven to lie in `[0, T)`. -/
def cornerFeature (table : ℕ → Feat) (c : ℤ × ℤ × ℤ) (res T : ℕ) : Feat :=
  table (hash_position c res T)

/-- Embeds `HashEncoding._trilinear_interpolate` (instant_ngp.py lines
143-169).  The source writes `c000 * (1 - wx)` for scaling a feature row by
a scalar; here that is scalar multiplication on `ℝ × ℝ`. -/
def trilinear_interpolate (c000 c001 c010 c011 c100 c101 c110 c111 : Feat)
    (wx wy wz : ℝ) : Feat :=
  let c00 := (1 - wx) • c000 + wx • c100
  let c01 := (1 - wx) • c001 + wx • c101
  let c10 := (1 - wx) • c010 + wx • c110
  let c11 := (1 - wx) • c011 + wx • c111
  let c0 := (1 - wy) • c00 + wy • c10
  let c1 := (1 - wy) • c01 + wy • c11
  (1 - wz) • c0 + wz • c1

/-- One level of `HashEncoding.forward` (instant_ngp.py lines 95-124) at a
position `p` already normalized to `[0, 1]³`: scale by `resolution - 1`,
floor to the lattice cell, look up the 8 corner features through
`hash_position`, and interpolate trilinearly with the fractional offsets.
Corner order follows the `i, j, k` loops of lines 109-113. -/
def levelEncode (table : ℕ → Feat) (res T : ℕ) (p : ℝ × ℝ × ℝ) : Feat :=
  let scaled : ℝ × ℝ × ℝ :=
    (p.1 * ((res : ℝ) - 1), p.2.1 * ((res : ℝ) - 1), p.2.2 * ((res : ℝ) - 1))
  let g : ℤ × ℤ × ℤ := (⌊scaled.1⌋, ⌊scaled.2.1⌋, ⌊scaled.2.2⌋)
  let w : ℝ × ℝ × ℝ :=
    (scaled.1 - (g.1 : ℝ), scaled.2.1 - (g.2.1 : ℝ), scaled.2.2 - (g.2.2 : ℝ))
  let f := fun i j k : ℤ =>
    cornerFeature table (g.1 + i, g.2.1 + j, g.2.2 + k) res T
  trilinear_interpolate (f 0 0 0) (f 0 0 1) (f 0 1 0) (f 0 1 1)
    (f 1 0 0) (f 1 0 1) (f 1 1 0) (f 1 1 1) w.1 w.2.1 w.2.2

/-! ## Direction encoding (`SphericalHarmonicsEncoding`, instant_ngp.py
lines 172-243) -/

/-- Euclidean norm of a 3-vector. -/
def dirNorm (v : ℝ × ℝ × ℝ) : ℝ :=
  Real.sqrt (v.1 ^ 2 + v.2.1 ^ 2 + v.2.2 ^ 2)

/-- Embeds `F.normalize(directions, dim=-1)` (instant_ngp.py line 197):
`v / max(norm v, 1e-12)` — torch's `normalize` divides by the norm clamped
below at `eps = 1e-12`. -/
def normalizeDir (v : ℝ × ℝ × ℝ) : ℝ × ℝ × ℝ :=
  let n := max (dirNorm v) 1e-12
  (v.1 / n, v.2.1 / n, v.2.2 / n)

/-- Componentwise scaling `k * v`, the scaled direction vector of the
scale-invariance property. -/
def scaleVec (k : ℝ) (v : ℝ × ℝ × ℝ) : ℝ × ℝ × ℝ :=
  (k * v.1, k * v.2.1, k * v.2.2)

/-- Embeds `self.output_dim = (degree + 1) ** 2`
(`SphericalHarmonicsEncoding.__init__`, instant_ngp.py line 184). -/
def sh_output_dim (degree : ℕ) : ℕ := (degree + 1) ^ 2

/-- The `features` list built by `SphericalHarmonicsEncoding.forward`
(instant_ngp.py lines 196-241): normalize the input direction, then append
the closed-form basis values for each degree block `self.degree` reaches.
The source hard-codes blocks only up to degree 4. -/
def sh_features (degree : ℕ) (d : ℝ × ℝ × ℝ) : List ℝ :=
  let u := normalizeDir d
  let x := u.1
  let y := u.2.1
  let z := u.2.2
  [(0.28209479177387814 : ℝ)] ++
  (if 1 ≤ degree then
    [-0.48860251190291987 * y, 0.48860251190291987 * z,
      -0.48860251190291987 * x]
   else []) ++
  (if 2 ≤ degree then
    [1.0925484305920792 * x * y, -1.0925484305920792 * y * z,
      0.31539156525252005 * (3 * z ^ 2 - 1), -1.0925484305920792 * x * z,
      0.5462742152960396 * (x ^ 2 - y ^ 2)]
   else []) ++
  (if 3 ≤ degree then
    [-0.5900435899266435 * y * (3 * x ^ 2 - y ^ 2),
      2.890611442640554 * x * y * z,
      -0.4570457994644658 * y * (5 * z ^ 2 - 1),
      0.3731763325901154 * z * (5 * z ^ 2 - 3),
      -0.4570457994644658 * x * (5 * z ^ 2 - 1),
      1.445305721320277 * z * (x ^ 2 - y ^ 2),
      -0.5900435899266435 * x * (x ^ 2 - 3 * y ^ 2)]
   else []) ++
  (if 4 ≤ degree then
    [2.5033429417967046 * x * y * (x ^ 2 - y ^ 2),
      -1.7701307697799304 * y * z * (3 * x ^ 2 - y ^ 2),
      0.9461746957575601 * x * y * (7 * z ^ 2 - 1),
      -0.6690465435572892 * y * z * (7 * z ^ 2 - 3),
      0.10578554691520431 * (35 * z ^ 4 - 30 * z ^ 2 + 3),
      -0.6690465435572892 * x * z * (7 * z ^ 2 - 3),
      0.47308734787878004 * (x ^ 2 - y ^ 2) * (7 * z ^ 2 - 1),
      -1.7701307697799304 * x * z * (x ^ 2 - 3 * y ^ 2),
      0.6258357354491761 * (x ^ 4 - 6 * x ^ 2 * y ^ 2 + y ^ 4)]
   else [])

/-- Embeds `SphericalHarmonicsEncoding.forward` (instant_ngp.py lines
186-243), whose return is `torch.stack(features[:self.output_dim])`. -/
def sh_forward (degree : ℕ) (d : ℝ × ℝ × ℝ) : List ℝ :=
  (sh_features degree d).take (sh_output_dim degree)

end

/-! ## Construction-time validation (config.py lines 15-61,
instant_ngp.py lines 29-75) -/

/-- Fields of `ModelConfig` (config.py lines 15-61) that participate in
construction and validation. -/
structure ModelConfigE where
  network_width : ℤ
  network_depth : ℤ
  max_samples : ℤ
  near_plane : ℚ
  far_plane : ℚ
  hashmap_size : ℕ
  base_resolution : ℕ
  max_resolution : ℕ
  log2_hashmap_size : ℕ

/-- Embeds `ModelConfig.__post_init__` (config.py lines 52-61): the only
construction-time validation in the repository.  Raising `ValueError` is
modelled as `Except.error`. -/
def ModelConfig_post_init (c : ModelConfigE) : Except String Unit :=
  if c.network_width ≤ 0 then .error ("network_width must be positive")
  else if c.network_depth ≤ 0 then .error ("network_depth must be positive")
  else if c.max_samples ≤ 0 then .error ("max_samples must be positive")
  else if c.far_plane ≤ c.near_plane then
    .error ("near_plane must be less than far_plane")
  else .ok ()

/-- State built by `HashEncoding.__init__` (instant_ngp.py lines 29-75). -/
structure HashEncodingE where
  num_levels : ℕ
  base_resolution : ℕ
  max_resolution : ℕ
  feature_dim : ℕ
  hashmap_size : ℕ
  growth_factor : ℝ
  resolutions : List ℕ

noncomputable section

/-- Embeds
`self.growth_factor = exp((log max_res - log base_res) / (num_levels - 1))`
(instant_ngp.py lines 56-58).  For `num_levels = 1` numpy produces an
infinity (with a warning, not an exception) where real division by zero
yields `0`; no theorem below depends on that value. -/
def HashEncoding_growth (num_levels base_res max_res : ℕ) : ℝ :=
  Real.exp ((Real.log max_res - Real.log base_res) / ((num_levels : ℝ) - 1))

/-- Embeds `HashEncoding.__init__` (instant_ngp.py lines 29-75).  The
constructor contains no intentional validation, but one statement can
raise: with `base_resolution = 0` and `num_levels ≥ 2`, `np.log(0)` is
`-inf` (a warning, not an exception), making `growth_factor` infinite (or
nan when `max_resolution = 0` as well), and the level-1 iteration of the
resolution loop computes `int(0 * inf) = int(nan)`, a `ValueError`
(line 68).  Every other warning path (log of zero, division by zero at
`num_levels = 1`, `exp` overflow) yields inf/nan without raising, and with
`base_resolution ≥ 1` every `int(...)` argument is finite, so for all
other natural-number arguments the constructor returns normally.  The
table size is `2 ** log2_hashmap_size` (line 53); `int(...)` truncation of
the non-negative per-level resolution is the natural-number floor
(lines 66-70). -/
def HashEncoding_init (num_levels base_res max_res log2_size feat : ℕ) :
    Except String HashEncodingE :=
  if base_res = 0 ∧ 2 ≤ num_levels then
    .error ("cannot convert float NaN to integer")
  else
    .ok
      { num_levels := num_levels
        base_resolution := base_res
        max_resolution := max_res
        feature_dim := feat
        hashmap_size := 2 ^ log2_size
        growth_factor := HashEncoding_growth num_levels base_res max_res
        resolutions :=
          (List.range num_levels).map fun level =>
            min (⌊(base_res : ℝ) *
              HashEncoding_growth num_levels base_res max_res ^ level⌋₊)
              max_res }

/-- Embeds `InstantNGP.__init__` (instant_ngp.py lines 249-295) as far as
eager validation is concerned: the `ModelConfig` is validated by its
`__post_init__`, then `HashEncoding` is built with `num_levels = 16` and
`feature_dim = 2` hard-coded (lines 259-265). -/
def InstantNGP_init (c : ModelConfigE) : Except String HashEncodingE :=
  (ModelConfig_post_init c).bind fun _ =>
    HashEncoding_init 16 c.base_resolution c.max_resolution
      c.log2_hashmap_size 2

/-! ## Stratified sampling with training jitter
(`NerfModel.forward`, nerf.py lines 236-246) -/

/-- Embeds `torch.linspace(near, far, steps)` (nerf.py line 236): `steps`
points from `near` to `far` inclusive, spacing `(far - near) / (steps - 1)`. -/
def linspace (near far : ℝ) (steps : ℕ) : List ℝ :=
  (List.range steps).map fun i : ℕ =>
    near + (i : ℝ) * ((far - near) / ((steps : ℝ) - 1))

/-- Embeds `t_vals = t_vals + noise` with
`noise = torch.rand_like(t_vals) * (far - near) / num_samples`
(nerf.py lines 240-242): the caller supplies the per-sample noise values,
each drawn uniformly from `[0, (far - near) / num_samples)`. -/
def jitteredTvals (near far : ℝ) (steps : ℕ) (noise : List ℝ) : List ℝ :=
  List.zipWith (· + ·) (linspace near far steps) noise

end

/-!
## Shared helper lemmas
-/

set_option maxHeartbeats 1000000

/-- Every element of a `zipWith` comes from a pair of elements of the two
input lists. -/
theorem mem_zipWith_exists {α β γ : Type*} {f : α → β → γ} :
    ∀ {l1 : List α} {l2 : List β} {x : γ}, x ∈ List.zipWith f l1 l2 →
      ∃ a ∈ l1, ∃ b ∈ l2, x = f a b
  | [], _, x, hx => by simp at hx
  | _ :: _, [], x, hx => by simp at hx
  | a :: l1, b :: l2, x, hx => by
    simp only [List.zipWith_cons_cons, List.mem_cons] at hx
    rcases hx with rfl | hx
    · exact ⟨a, List.mem_cons_self a l1, b, List.mem_cons_self b l2, rfl⟩
    · obtain ⟨a2, ha2, b2, hb2, rfl⟩ := mem_zipWith_exists hx
      exact ⟨a2, List.mem_cons_of_mem a ha2, b2, List.mem_cons_of_mem b hb2, rfl⟩

/-- Consecutive differences of a non-decreasing list are non-negative. -/
theorem diffs_nonneg :
    ∀ (l : List ℝ), List.Chain' (· ≤ ·) l →
      ∀ x ∈ List.zipWith (fun a b => b - a) l l.tail, 0 ≤ x
  | [], _, x, hx => by simp at hx
  | [_], _, x, hx => by simp at hx
  | t0 :: t1 :: rest, h, x, hx => by
    rw [List.chain'_cons] at h
    simp only [List.tail_cons, List.zipWith_cons_cons, List.mem_cons] at hx
    rcases hx with rfl | hx
    · linarith [h.1]
    · exact diffs_nonneg (t1 :: rest) h.2 x (by simpa using hx)

/-- Every per-sample delta distance is non-negative when the sample
distances are ascending (the `1e10` sentinel included). -/
theorem distsList_nonneg (tvals : List ℝ) (h : List.Chain' (· ≤ ·) tvals) :
    ∀ δ ∈ distsList tvals, 0 ≤ δ := by
  intro δ hδ
  simp only [distsList, List.mem_append, List.mem_map] at hδ
  rcases hδ with hδ | ⟨_, _, rfl⟩
  · exact diffs_nonneg tvals h δ hδ
  · norm_num

/-- For non-negative densities and ascending distances every alpha value
lies in `[0, 1]` (it is in fact below `1` since the exponential is
positive). -/
theorem alphasList_bounds (densities tvals : List ℝ)
    (hd : ∀ σ ∈ densities, 0 ≤ σ) (ht : List.Chain' (· ≤ ·) tvals) :
    ∀ a ∈ alphasList densities tvals, 0 ≤ a ∧ a ≤ 1 := by
  intro a ha
  obtain ⟨σ, hσ, δ, hδ, rfl⟩ := mem_zipWith_exists ha
  have h1 : 0 ≤ σ * δ := mul_nonneg (hd σ hσ) (distsList_nonneg tvals ht δ hδ)
  have h2 : Real.exp (-(σ * δ)) ≤ 1 := Real.exp_le_one_iff.mpr (by linarith)
  have h3 : 0 < Real.exp (-(σ * δ)) := Real.exp_pos _
  constructor <;> linarith

/-- A `scanl` trace is a chain for `R` when each step preserves an
invariant `P` and relates each state to its successor. -/
theorem chain'_scanl {α β : Type*} {R : α → α → Prop} {f : α → β → α}
    {P : α → Prop} :
    ∀ (l : List β) (t : α), P t →
      (∀ s a, P s → a ∈ l → P (f s a) ∧ R s (f s a)) →
      List.Chain' R (List.scanl f t l)
  | [], t, _, _ => by simp
  | a :: rest, t, ht, h => by
    rw [List.scanl_cons, List.singleton_append]
    have h1 := h t a ht (List.mem_cons_self a rest)
    have ih := chain'_scanl rest (f t a) h1.1
      (fun s b hs hb => h s b hs (List.mem_cons_of_mem a hb))
    cases rest with
    | nil => simpa [List.scanl_nil] using h1.2
    | cons b rest2 =>
      rw [List.scanl_cons, List.singleton_append] at ih ⊢
      exact List.Chain'.cons h1.2 ih

/-- For alphas in `[0, 1]`, each transmittance entry is at most
`1 + 1e-10` times its predecessor (the `1e-10` stabilizer added to every
factor can push a factor slightly above `1`). -/
theorem transmittance_chain_slack (alphas : List ℝ)
    (hb : ∀ a ∈ alphas, 0 ≤ a ∧ a ≤ 1) :
    List.Chain' (fun x y => y ≤ x * (1 + 1e-10)) (transmittanceList alphas) := by
  have key : List.Chain' (fun x y => y ≤ x * (1 + 1e-10))
      (alphas.scanl (fun acc a => acc * (1 - a + 1e-10)) 1) := by
    refine chain'_scanl (P := fun t => 0 ≤ t) alphas 1 (by norm_num) ?_
    intro s a hs ha
    obtain ⟨ha0, ha1⟩ := hb a ha
    constructor
    · have hf : (0 : ℝ) ≤ 1 - a + 1e-10 := by linarith
      exact mul_nonneg hs hf
    · nlinarith
  exact key.init

/-- With all densities zero every alpha value is exactly zero
(`1 - exp 0`). -/
theorem alphasList_all_zero (densities tvals : List ℝ)
    (hd : ∀ σ ∈ densities, σ = 0) :
    ∀ a ∈ alphasList densities tvals, a = 0 := by
  intro a ha
  obtain ⟨σ, hσ, δ, hδ, rfl⟩ := mem_zipWith_exists ha
  rw [hd σ hσ]
  simp

/-- With all alphas zero every rendering weight is zero. -/
theorem weightsList_all_zero (alphas : List ℝ) (h : ∀ a ∈ alphas, a = 0) :
    ∀ w ∈ weightsList alphas, w = 0 := by
  intro w hw
  obtain ⟨a, ha, t, _, rfl⟩ := mem_zipWith_exists hw
  rw [h a ha, zero_mul]

/-- The weighted color sum vanishes when every weight is zero. -/
theorem weightedColorSum_all_zero :
    ∀ (weights : List ℝ) (colors : List RGB), (∀ w ∈ weights, w = 0) →
      weightedColorSum weights colors = (0, 0, 0)
  | [], colors, _ => by cases colors <;> simp [weightedColorSum]
  | w :: ws, [], _ => by simp [weightedColorSum]
  | w :: ws, c :: cs, h => by
    have hw : w = 0 := h w (List.mem_cons_self _ _)
    have ih := weightedColorSum_all_zero ws cs fun x hx => h x (List.mem_cons_of_mem _ hx)
    simp only [weightedColorSum, List.zipWith_cons_cons, List.foldr_cons] at ih ⊢
    rw [ih, hw]
    simp

/-- A ray with all densities zero renders to pure white over a white
background and to pure black without one, with accumulated alpha `0`. -/
theorem volume_render_zero_cases (colors : List RGB)
    (densities tvals : List ℝ) (hd : ∀ σ ∈ densities, σ = 0) :
    volume_render true colors densities tvals = ((1, 1, 1), 0) ∧
    volume_render false colors densities tvals = ((0, 0, 0), 0) := by
  have hz := alphasList_all_zero densities tvals hd
  have hw := weightsList_all_zero _ hz
  have hsum : (weightsList (alphasList densities tvals)).sum = 0 :=
    List.sum_eq_zero hw
  have hrgb := weightedColorSum_all_zero _ colors hw
  simp only [volume_render, hsum, hrgb]
  norm_num

/-!
## Claim theorems
-/

/-- Claim C1 (code defect).  The early-terminating renderer
`volume_render_optimized` does not agree with the plain renderer
`volume_render` up to a small early-termination tolerance: at the concrete
ray with colors `[(1,1,1), (1,1,1)]`, densities `[1, 1]` and sample
distances `[0, 1]` (no background), its accumulated alpha exceeds the plain
renderer's by more than `1/5`, because the loop at instant_ngp.py lines
480-487 breaks after one iteration and leaves the transmittance at `1` for
every sample. -/
theorem volume_render_optimized_diverges :
    (volume_render_optimized false [((1 : ℝ), 1, 1), (1, 1, 1)] [1, 1] [0, 1]).2 -
      (volume_render false [((1 : ℝ), 1, 1), (1, 1, 1)] [1, 1] [0, 1]).2 > 1 / 5 := by
  have h1 : Real.exp (-1) < 1 / 2 := by
    rw [Real.exp_neg]
    have h2 : (2 : ℝ) < Real.exp 1 := lt_trans (by norm_num) Real.exp_one_gt_d9
    rw [show (1 : ℝ) / 2 = 2⁻¹ by norm_num]
    exact inv_strictAnti₀ (by norm_num) h2
  have h2 : 0 < Real.exp (-(1e10 : ℝ)) := Real.exp_pos _
  have h3 : Real.exp (-(1e10 : ℝ)) ≤ Real.exp (-1) := Real.exp_le_exp.mpr (by norm_num)
  simp only [volume_render, volume_render_optimized, weightsList, alphasList, distsList,
    transmittanceList, transmittanceOptList, List.scanl, weightedColorSum]
  norm_num
  nlinarith [h1, h2, h3]

/-- Claim C2 (amended).  For a ray whose sample densities are all zero the
renderer returns accumulated alpha exactly `0`, and RGB exactly `(1,1,1)`
(white) when `use_white_background` is set and `(0,0,0)` otherwise: the
code composites against white via `rgb + (1 - acc_alpha)` and never reads
the configured `background_color`. -/
theorem volume_render_zero_density_white (cfg : SceneConfigE) (colors : List RGB)
    (densities tvals : List ℝ) (hd : ∀ σ ∈ densities, σ = 0) :
    (volume_render_scene cfg colors densities tvals).2 = 0 ∧
    (volume_render_scene cfg colors densities tvals).1 =
      (if cfg.use_white_background then ((1, 1, 1) : RGB) else (0, 0, 0)) := by
  have h := volume_render_zero_cases colors densities tvals hd
  unfold volume_render_scene
  cases hcfg : cfg.use_white_background
  · rw [h.2]
    norm_num
  · rw [h.1]
    norm_num

/-- Witness for C2: a concrete two-sample ray with zero densities over a
white-background scene. -/
theorem volume_render_zero_density_white_witness :
    (volume_render_scene (SceneConfigE.mk ((1 : ℝ), 1, 1) true)
        [((1 / 2 : ℝ), 1 / 2, 1 / 2), (1 / 2, 1 / 2, 1 / 2)] [0, 0] [0, 1]).2 = 0 ∧
    (volume_render_scene (SceneConfigE.mk ((1 : ℝ), 1, 1) true)
        [((1 / 2 : ℝ), 1 / 2, 1 / 2), (1 / 2, 1 / 2, 1 / 2)] [0, 0] [0, 1]).1 =
      (if (SceneConfigE.mk ((1 : ℝ), 1, 1) true).use_white_background
        then ((1, 1, 1) : RGB) else (0, 0, 0)) :=
  volume_render_zero_density_white _ _ _ _ (by intro σ hσ; simp at hσ; exact hσ)

/-- Counterexample for C2 as stated: with configured background color
`(0,0,0)` (and `use_white_background` set), an all-zero-density ray renders
to `(1,1,1)`, not to the scene's configured background color — the renderer
ignores `background_color` and composites against white. -/
theorem volume_render_ignores_background_color :
    volume_render_scene (SceneConfigE.mk ((0 : ℝ), 0, 0) true)
        [((0 : ℝ), 0, 0), (0, 0, 0)] [0, 0] [0, 1] = ((1, 1, 1), 0) ∧
    ((1, 1, 1) : RGB) ≠ (SceneConfigE.mk ((0 : ℝ), 0, 0) true).background_color := by
  constructor
  · have h := volume_render_zero_cases [((0 : ℝ), 0, 0), (0, 0, 0)] [0, 0] [0, 1]
      (by intro σ hσ; simp at hσ; exact hσ)
    exact h.1
  · simp [Prod.ext_iff]

/-- Claim C3 (amended).  For non-negative densities and ascending sample
distances, each transmittance entry computed by the integrator is at most
`(1 + 1e-10)` times its predecessor: non-increasing up to the `1e-10`
stabilizer the code adds to every cumprod factor.  Exact non-increase fails
(see the counterexample) because the factor `1 - alpha + 1e-10` exceeds `1`
whenever `alpha < 1e-10`. -/
theorem transmittance_nonincreasing_up_to_stabilizer (densities tvals : List ℝ)
    (hd : ∀ σ ∈ densities, 0 ≤ σ) (ht : List.Chain' (· ≤ ·) tvals) :
    List.Chain' (fun x y => y ≤ x * (1 + 1e-10))
      (transmittanceList (alphasList densities tvals)) :=
  transmittance_chain_slack _ (alphasList_bounds densities tvals hd ht)

/-- Witness for C3: a concrete ray with densities `[1, 2]` and distances
`[0, 1]`. -/
theorem transmittance_nonincreasing_up_to_stabilizer_witness :
    List.Chain' (fun x y => y ≤ x * (1 + 1e-10))
      (transmittanceList (alphasList [1, 2] [0, 1])) :=
  transmittance_nonincreasing_up_to_stabilizer [1, 2] [0, 1]
    (by intro σ hσ; simp at hσ; rcases hσ with rfl | rfl <;> norm_num)
    (by simp [List.chain'_cons])

/-- Counterexample for C3 as stated: at densities `[0, 0]` (non-negative)
and ascending distances `[0, 1]`, the transmittance sequence computed by
the code is `[1, 1 + 1e-10]`, which strictly increases, so it is not
non-increasing. -/
theorem transmittance_increases_at_zero_density :
    ¬ List.Chain' (fun a b : ℝ => b ≤ a)
      (transmittanceList (alphasList [0, 0] [0, 1])) := by
  have h : transmittanceList (alphasList [0, 0] [0, 1]) = [1, 1 + 1e-10] := by
    simp [transmittanceList, alphasList, distsList, List.scanl]
  rw [h]
  simp only [List.chain'_cons, List.chain'_singleton, and_true]
  norm_num

/-- Claim C4 (code defect).  In `_sample_pdf`, for the coarse distances
`[0, 1]`, weights `[1, 1]` and drawn quantile `u = 3/4` (inside `[0, 1)`),
`searchsorted` returns index `2`, the `above` index is clamped only to
`cdf.shape[-1] - 1 = 2`, and `torch.gather(t_vals, -1, above)` indexes the
two-element `t_vals` at `2`: out of bounds, so the lookup raises instead of
returning a fine distance (the embedding returns `none`). -/
theorem sample_pdf_gather_out_of_range :
    sample_pdf_t [0, 1] [1, 1] (3 / 4) = none := by
  simp only [sample_pdf_t, List.map_cons, List.map_nil, List.sum_cons, List.sum_nil,
    List.scanl, List.tail_cons, List.take, List.length, countLE]
  norm_num

/-- Claim C5 (confirmed).  For every integer corner coordinate triple and
level resolution, `hash_position` equals the stated clamp-then-hash formula
`((cx * 1) xor (cy * 2654435761) xor (cz * 805459861)) mod T` with each
component first clamped into `[0, res - 1]`, the result always lies in
`[0, T)` (so the table lookup is in bounds and no input can raise), and two
coordinates with equal hash indices read the same shared feature row. -/
theorem hash_position_bounds_and_aliasing (c c2 : ℤ × ℤ × ℤ) (res T : ℕ)
    (table : ℕ → Feat) (hT : 0 < T) :
    hash_position c res T < T ∧
    hash_position c res T =
      ((clampCoord res c.1 * 1) ^^^ (clampCoord res c.2.1 * 2654435761) ^^^
        (clampCoord res c.2.2 * 805459861)) % T ∧
    (hash_position c2 res T = hash_position c res T →
      cornerFeature table c2 res T = cornerFeature table c res T) := by
  refine ⟨Nat.mod_lt _ hT, rfl, ?_⟩
  intro h
  simp [cornerFeature, h]

/-- Witness for C5, at Scenario D's aliasing setup: table size `2` is
smaller than `res³ = 4096`, and the coordinates `(2,0,0)` and `(-5,3,1000000)`
are distinct inputs whose clamped hashes are computed concretely. -/
theorem hash_position_bounds_and_aliasing_witness :
    0 < 2 ^ 19 ∧
    (hash_position (-5, 3, 1000000) 16 (2 ^ 19) < 2 ^ 19 ∧
      hash_position (-5, 3, 1000000) 16 (2 ^ 19) =
        ((clampCoord 16 (-5) * 1) ^^^ (clampCoord 16 3 * 2654435761) ^^^
          (clampCoord 16 1000000 * 805459861)) % 2 ^ 19 ∧
      (hash_position (2, 0, 0) 16 (2 ^ 19) = hash_position (-5, 3, 1000000) 16 (2 ^ 19) →
        cornerFeature (fun n => ((n : ℝ), 0)) (2, 0, 0) 16 (2 ^ 19) =
          cornerFeature (fun n => ((n : ℝ), 0)) (-5, 3, 1000000) 16 (2 ^ 19))) :=
  ⟨by norm_num, hash_position_bounds_and_aliasing (-5, 3, 1000000) (2, 0, 0) 16 (2 ^ 19)
    (fun n => ((n : ℝ), 0)) (by norm_num)⟩

/-- Claim C6 (amended).  The direction encoder is scale invariant — and in
the real-number model exactly so — provided neither the vector's norm nor
the scaled vector's norm falls below torch's normalization floor `1e-12`:
`F.normalize` divides by `max(norm, 1e-12)`, so both inputs normalize to
the same unit vector and the basis evaluations coincide. -/
theorem sh_encoding_scale_invariant (degree : ℕ) (v : ℝ × ℝ × ℝ) (k : ℝ)
    (hk : 0 < k) (hv : 1e-12 ≤ dirNorm v) (hkv : 1e-12 ≤ dirNorm (scaleVec k v)) :
    sh_forward degree (scaleVec k v) = sh_forward degree v := by
  have hnorm : dirNorm (scaleVec k v) = k * dirNorm v := by
    unfold dirNorm scaleVec
    rw [show (k * v.1) ^ 2 + (k * v.2.1) ^ 2 + (k * v.2.2) ^ 2 =
      k ^ 2 * (v.1 ^ 2 + v.2.1 ^ 2 + v.2.2 ^ 2) by ring]
    rw [Real.sqrt_mul (sq_nonneg k), Real.sqrt_sq hk.le]
  have hunit : normalizeDir (scaleVec k v) = normalizeDir v := by
    unfold normalizeDir
    rw [hnorm, max_eq_left (by rw [← hnorm]; exact hkv), max_eq_left hv]
    simp only [scaleVec]
    rw [mul_div_mul_left _ _ (ne_of_gt hk), mul_div_mul_left _ _ (ne_of_gt hk),
      mul_div_mul_left _ _ (ne_of_gt hk)]
  unfold sh_forward sh_features
  rw [hunit]

/-- Witness for C6: `v = (0, 0, 1)` (norm `1`) and `k = 2` (scaled norm `2`). -/
theorem sh_encoding_scale_invariant_witness :
    (0 : ℝ) < 2 ∧ (1e-12 : ℝ) ≤ dirNorm ((0 : ℝ), 0, 1) ∧
    (1e-12 : ℝ) ≤ dirNorm (scaleVec 2 ((0 : ℝ), 0, 1)) ∧
    sh_forward 4 (scaleVec 2 ((0 : ℝ), 0, 1)) = sh_forward 4 ((0 : ℝ), 0, 1) := by
  have hv : (1e-12 : ℝ) ≤ dirNorm ((0 : ℝ), 0, 1) := by
    unfold dirNorm
    rw [show (0 : ℝ) ^ 2 + (0 : ℝ) ^ 2 + (1 : ℝ) ^ 2 = 1 by ring, Real.sqrt_one]
    norm_num
  have hkv : (1e-12 : ℝ) ≤ dirNorm (scaleVec 2 ((0 : ℝ), 0, 1)) := by
    unfold dirNorm scaleVec
    rw [show (2 * (0 : ℝ)) ^ 2 + (2 * (0 : ℝ)) ^ 2 + (2 * (1 : ℝ)) ^ 2 = 2 ^ 2 by ring,
      Real.sqrt_sq (by norm_num)]
    norm_num
  exact ⟨by norm_num, hv, hkv,
    sh_encoding_scale_invariant 4 ((0 : ℝ), 0, 1) 2 (by norm_num) hv hkv⟩

/-- Counterexample for C6 as stated: `v = (1e-13, 0, 0)` has positive norm
and `k = 10 > 0`, yet `encode(k·v) ≠ encode(v)`: the norm `1e-13` is below
torch's `1e-12` normalization floor, so `v` normalizes to `(0.1, 0, 0)`
while `k·v` normalizes to `(1, 0, 0)`, and the degree-1 basis values differ
by far more than any floating tolerance. -/
theorem sh_encoding_not_invariant_below_floor :
    0 < dirNorm ((1e-13 : ℝ), 0, 0) ∧ (0 : ℝ) < 10 ∧
    sh_forward 4 (scaleVec 10 ((1e-13 : ℝ), 0, 0)) ≠ sh_forward 4 ((1e-13 : ℝ), 0, 0) := by
  have hn1 : dirNorm ((1e-13 : ℝ), 0, 0) = 1e-13 := by
    unfold dirNorm
    rw [show ((1e-13 : ℝ)) ^ 2 + (0 : ℝ) ^ 2 + (0 : ℝ) ^ 2 = (1e-13 : ℝ) ^ 2 by ring,
      Real.sqrt_sq (by norm_num)]
  have hn2 : dirNorm ((1e-12 : ℝ), 0, 0) = 1e-12 := by
    unfold dirNorm
    rw [show ((1e-12 : ℝ)) ^ 2 + (0 : ℝ) ^ 2 + (0 : ℝ) ^ 2 = (1e-12 : ℝ) ^ 2 by ring,
      Real.sqrt_sq (by norm_num)]
  have hscale : scaleVec 10 ((1e-13 : ℝ), 0, 0) = ((1e-12 : ℝ), 0, 0) := by
    unfold scaleVec
    norm_num
  have hu1 : normalizeDir ((1e-13 : ℝ), 0, 0) = (1 / 10, 0, 0) := by
    unfold normalizeDir
    rw [hn1, max_eq_right (by norm_num : (1e-13 : ℝ) ≤ 1e-12)]
    norm_num
  have hu2 : normalizeDir ((1e-12 : ℝ), 0, 0) = (1, 0, 0) := by
    unfold normalizeDir
    rw [hn2, max_eq_right (by norm_num : (1e-12 : ℝ) ≤ 1e-12)]
    norm_num
  refine ⟨by rw [hn1]; norm_num, by norm_num, ?_⟩
  rw [hscale]
  intro h
  have h4 := congrArg (fun l => l[3]?) h
  simp only [sh_forward, sh_features, hu1, hu2] at h4
  rw [List.getElem?_take_of_lt (by norm_num [sh_output_dim]),
    List.getElem?_take_of_lt (by norm_num [sh_output_dim])] at h4
  norm_num at h4

/-- Claim C7 (amended).  Construction rejects eagerly, with an error, a
non-positive sample count and `near ≥ far` (at `ModelConfig` construction,
and therefore at `InstantNGP` construction); every successfully constructed
`HashEncoding` has table size `2 ** log2_hashmap_size`, always a power of
two, so a non-power-of-two size cannot arise and no validation of it exists
or is needed.  A level count below 1 is not rejected (see the
counterexample).  The hypothesis `hbL` excludes the constructor's one
incidental error path — the `int(nan)` raise at `base_resolution = 0` with
at least two levels — which is an arithmetic accident, not a validation. -/
theorem construction_validation_scope (c : ModelConfigE) (L b m l f : ℕ)
    (h : c.max_samples ≤ 0 ∨ c.far_plane ≤ c.near_plane)
    (hbL : ¬(b = 0 ∧ 2 ≤ L)) :
    (ModelConfig_post_init c).isOk = false ∧
    (InstantNGP_init c).isOk = false ∧
    (HashEncoding_init L b m l f).map HashEncodingE.hashmap_size =
      Except.ok (2 ^ l) := by
  have h1 : (ModelConfig_post_init c).isOk = false := by
    unfold ModelConfig_post_init
    split_ifs <;> first
      | rfl
      | (rcases h with h | h <;> [omega; linarith])
  refine ⟨h1, ?_, ?_⟩
  · unfold InstantNGP_init
    cases hx : ModelConfig_post_init c with
    | error e => rfl
    | ok u => rw [hx] at h1; exact absurd h1 (by simp [Except.isOk, Except.toBool])
  · unfold HashEncoding_init
    rw [if_neg hbL]
    rfl

/-- Witness for C7: a config with `max_samples = 0` and otherwise valid
fields, and a `HashEncoding` built with 16 levels at base resolution 16. -/
theorem construction_validation_scope_witness :
    ((0 : ℤ) ≤ 0 ∨ (1000 : ℚ) ≤ 1 / 5) ∧ ¬((16 : ℕ) = 0 ∧ 2 ≤ 16) ∧
    ((ModelConfig_post_init (ModelConfigE.mk 64 2 0 (1 / 5) 1000 (2 ^ 19) 16 2048 19)).isOk = false ∧
      (InstantNGP_init (ModelConfigE.mk 64 2 0 (1 / 5) 1000 (2 ^ 19) 16 2048 19)).isOk = false ∧
      (HashEncoding_init 16 16 2048 19 2).map HashEncodingE.hashmap_size =
        Except.ok (2 ^ 19)) :=
  ⟨Or.inl (by norm_num), by omega,
    construction_validation_scope (ModelConfigE.mk 64 2 0 (1 / 5) 1000 (2 ^ 19) 16 2048 19)
      16 16 2048 19 2 (Or.inl (by norm_num)) (by omega)⟩

/-- Counterexample for C7 as stated: constructing a `HashEncoding` with
level count `0` (below 1) succeeds — no validation rejects it and nothing
in `__init__` raises on this input — so the invalid level count is not
rejected eagerly with an error. -/
theorem hash_encoding_accepts_zero_levels :
    (HashEncoding_init 0 16 2048 19 2).isOk = true := rfl

/-- Claim C8 (amended).  For every configured maximum degree `D ≤ 4` the
direction encoder returns exactly `(D + 1)²` features per direction; the
hard-coded basis blocks stop at degree 4, so the contract fails for
`D ≥ 5` (see the counterexample). -/
theorem sh_forward_length_eq_sq (degree : ℕ) (hdeg : degree ≤ 4) (d : ℝ × ℝ × ℝ) :
    (sh_forward degree d).length = sh_output_dim degree := by
  interval_cases degree <;> simp [sh_forward, sh_features, sh_output_dim]

/-- Witness for C8: degree `2` at direction `(1, 2, 3)`. -/
theorem sh_forward_length_eq_sq_witness :
    2 ≤ 4 ∧ (sh_forward 2 ((1 : ℝ), 2, 3)).length = sh_output_dim 2 :=
  ⟨by norm_num, sh_forward_length_eq_sq 2 (by norm_num) ((1 : ℝ), 2, 3)⟩

/-- Counterexample for C8 as stated: at configured degree `5` the feature
list holds only the 25 hard-coded basis values, so
`features[:self.output_dim]` returns 25 features, not `(5 + 1)² = 36`. -/
theorem sh_forward_degree_five_truncated :
    (sh_forward 5 ((0 : ℝ), 0, 1)).length = 25 ∧ sh_output_dim 5 = 36 ∧
    (sh_forward 5 ((0 : ℝ), 0, 1)).length ≠ sh_output_dim 5 := by
  refine ⟨?_, by norm_num [sh_output_dim], ?_⟩ <;>
    simp [sh_forward, sh_features, sh_output_dim]

/-- Claim C9 (confirmed).  For a lattice coordinate `c` with components in
`[0, res - 1]` and a position `p` that maps exactly onto `c` (so every
fractional interpolation weight is zero), one level of the hash encoder
returns exactly the hash-table feature row addressed by `c`'s hash index,
unmodified by interpolation. -/
theorem levelEncode_at_lattice_corner (table : ℕ → Feat) (res T : ℕ)
    (c : ℤ × ℤ × ℤ) (p : ℝ × ℝ × ℝ)
    (hc1 : 0 ≤ c.1) (hc2 : c.1 ≤ (res : ℤ) - 1)
    (hc3 : 0 ≤ c.2.1) (hc4 : c.2.1 ≤ (res : ℤ) - 1)
    (hc5 : 0 ≤ c.2.2) (hc6 : c.2.2 ≤ (res : ℤ) - 1)
    (hp1 : p.1 * ((res : ℝ) - 1) = (c.1 : ℝ))
    (hp2 : p.2.1 * ((res : ℝ) - 1) = (c.2.1 : ℝ))
    (hp3 : p.2.2 * ((res : ℝ) - 1) = (c.2.2 : ℝ)) :
    levelEncode table res T p = table (hash_position c res T) := by
  unfold levelEncode
  simp only [hp1, hp2, hp3, Int.floor_intCast, sub_self]
  simp [trilinear_interpolate, cornerFeature]

/-- Witness for C9: resolution `4`, table size `8`, lattice coordinate
`(1, 2, 3)` and position `(1/3, 2/3, 1)`. -/
theorem levelEncode_at_lattice_corner_witness :
    (0 : ℤ) ≤ 1 ∧ (1 : ℤ) ≤ (4 : ℕ) - 1 ∧
    levelEncode (fun n => ((n : ℝ), 1)) 4 8 (1 / 3, 2 / 3, 1) =
      (fun n => ((n : ℝ), 1)) (hash_position (1, 2, 3) 4 8) :=
  ⟨by norm_num, by norm_num,
    levelEncode_at_lattice_corner (fun n => ((n : ℝ), 1)) 4 8 (1, 2, 3) (1 / 3, 2 / 3, 1)
      (by norm_num) (by norm_num) (by norm_num) (by norm_num) (by norm_num) (by norm_num)
      (by push_cast; norm_num) (by push_cast; norm_num) (by push_cast; norm_num)⟩

/-- Claim C10 (confirmed).  In training mode, with `S ≥ 2` samples,
`near < far`, and per-sample noise values each in
`[0, (far - near) / S)` — the range of
`rand * (far - near) / num_samples` — the jittered stratified distances are
strictly ascending without re-sorting: the jitter stays below the
`(far - near) / (S - 1)` bin spacing, so the integrator's ascending-order
precondition holds. -/
theorem jittered_tvals_strictly_ascending (near far : ℝ) (S : ℕ) (noise : List ℝ)
    (hS : 2 ≤ S) (hnf : near < far) (hlen : noise.length = S)
    (hnoise : ∀ x ∈ noise, 0 ≤ x ∧ x < (far - near) / S) :
    List.Chain' (· < ·) (jitteredTvals near far S noise) := by
  have hlin : (linspace near far S).length = S := by
    simp only [linspace, List.length_map, List.length_range]
  have hjl : (jitteredTvals near far S noise).length = S := by
    simp only [jitteredTvals, List.length_zipWith, hlin, hlen, min_self]
  rw [List.chain'_iff_get]
  intro i hi
  rw [hjl] at hi
  have hi1 : i < S := by omega
  have hi2 : i + 1 < S := by omega
  have hget : ∀ j, ∀ hj : j < S, ∀ hj2 : j < (jitteredTvals near far S noise).length,
      (jitteredTvals near far S noise).get ⟨j, hj2⟩ =
        (near + (j : ℝ) * ((far - near) / ((S : ℝ) - 1))) +
          noise.get ⟨j, by omega⟩ := by
    intro j hj hj2
    simp only [jitteredTvals, List.get_eq_getElem, List.getElem_zipWith,
      linspace, List.getElem_map, List.getElem_range]
  rw [hget i hi1 (by omega), hget (i + 1) hi2 (by omega)]
  have hni := hnoise (noise.get ⟨i, by omega⟩) (noise.get_mem _ _)
  have hni1 := hnoise (noise.get ⟨i + 1, by omega⟩) (noise.get_mem _ _)
  have hS2 : (2 : ℝ) ≤ (S : ℝ) := by exact_mod_cast hS
  have hstep : (far - near) / (S : ℝ) < (far - near) / ((S : ℝ) - 1) :=
    div_lt_div_of_pos_left (by linarith) (by linarith) (by linarith)
  push_cast
  nlinarith [hstep, hni.2, hni1.1]

/-- Witness for C10: two samples on `[0, 1]` with noise `[0, 1/4]`, each
noise value below `(far - near) / S = 1/2`. -/
theorem jittered_tvals_strictly_ascending_witness :
    2 ≤ 2 ∧ (0 : ℝ) < 1 ∧ ([(0 : ℝ), 1 / 4].length = 2) ∧
    List.Chain' (· < ·) (jitteredTvals 0 1 2 [0, 1 / 4]) :=
  ⟨le_refl 2, by norm_num, by simp,
    jittered_tvals_strictly_ascending 0 1 2 [0, 1 / 4] (le_refl 2) (by norm_num) (by simp)
      (by intro x hx; simp at hx; rcases hx with rfl | rfl <;> norm_num)⟩

end NerfEdgeKit
